import Mathlib

/-!
Shallow embedding of `change_task_description.py`, a utility that rewrites
the task-description fields of the two JSONL metadata files of a LeRobot
dataset (`meta/episodes.jsonl` and `meta/tasks.jsonl`).

JSON records are embedded as ordered association lists over a JSON value
type; a JSONL file is embedded as a list of lines, where a line is either
blank, a serialized well-formed object record, or malformed (anything
`json.loads` rejects, or a JSON value that is not an object, on which the
subsequent field assignment raises).  Serialisation and deserialisation of
a single well-formed record line are treated as mutually inverse,
matching `json.loads`/`json.dumps` round-tripping with insertion order of
fields preserved.  The filesystem is embedded as an association list from
path strings to file contents plus a list of existing directories.
-/

/-- JSON values, restricted to the shapes occurring in LeRobot metadata
records: strings, integers, booleans, null, and arrays of strings (the
shape of the `tasks` field).  Any other field passes through the program
untouched, so this restriction loses nothing for the rewrite. -/
inductive JVal where
  | str (s : String)
  | num (n : Int)
  | boolean (b : Bool)
  | null
  | strArr (l : List String)
deriving DecidableEq

/-- a parsed JSON object: its ordered field list, as `json.loads` yields
(insertion-ordered `dict`) -/
abbrev Rec : Type := List (String × JVal)

/-- Assignment `m[k] = v` on an ordered association list, with Python dict
semantics: an existing key keeps its position and gets the new value, a
missing key is appended at the end. -/
def setKV {β : Type} (m : List (String × β)) (k : String) (v : β) : List (String × β) :=
  match m with
  | [] => [(k, v)]
  | (a, b) :: m => if a = k then (k, v) :: m else (a, b) :: setKV m k v

/-- key lookup on an ordered association list (first match) -/
def lookupKV {β : Type} (k : String) : List (String × β) → Option β
  | [] => none
  | (a, b) :: m => if a = k then some b else lookupKV k m

/-- field lookup, `r[k]` / `r.get(k)` -/
def getField (r : Rec) (k : String) : Option JVal :=
  lookupKV k r

/-- field assignment `r[k] = v` -/
def setField (r : Rec) (k : String) (v : JVal) : Rec :=
  setKV r k v

/-- one line of a JSONL file -/
inductive Line where
  | blank
  | record (r : Rec)
  | malformed
deriving DecidableEq

/-- the records carried by the well-formed lines of a file, in order -/
def recsOf (lines : List Line) : List Rec :=
  lines.filterMap (fun l => match l with | Line.record r => some r | _ => none)

/-- read loop of `update_episodes_jsonl`: `json.loads(line.strip())` is
applied to every line; a blank line strips to the empty string, which
`json.loads` rejects, so blank and malformed lines both raise. -/
def readEpisodes : List Line → Except Unit (List Rec)
  | [] => .ok []
  | Line.record r :: rest =>
    match readEpisodes rest with
    | .ok rs => .ok (r :: rs)
    | .error e => .error e
  | Line.blank :: _ => .error ()
  | Line.malformed :: _ => .error ()

/-- read loop of `update_tasks_jsonl`: a line that strips to the empty
string is skipped; any other line is parsed and raises if malformed. -/
def readTasks : List Line → Except Unit (List Rec)
  | [] => .ok []
  | Line.blank :: rest => readTasks rest
  | Line.record r :: rest =>
    match readTasks rest with
    | .ok rs => .ok (r :: rs)
    | .error e => .error e
  | Line.malformed :: _ => .error ()

/-- per-record mutation of the episodes file: `episode['tasks'] = new_tasks` -/
def epMut (T : List String) (r : Rec) : Rec :=
  setField r "tasks" (JVal.strArr T)

/-- per-record mutation of the tasks file:
`task['task'] = new_tasks[0] if new_tasks else ""` -/
def tkMut (T : List String) (r : Rec) : Rec :=
  setField r "task" (JVal.str (T.headD ""))

/-- content transformation of `update_episodes_jsonl`: read every line,
mutate every record, serialize one record per line -/
def updateEpisodesLines (lines : List Line) (T : List String) : Except Unit (List Line) :=
  match readEpisodes lines with
  | .error e => .error e
  | .ok rs => .ok ((rs.map (epMut T)).map Line.record)

/-- content transformation of `update_tasks_jsonl` -/
def updateTasksLines (lines : List Line) (T : List String) : Except Unit (List Line) :=
  match readTasks lines with
  | .error e => .error e
  | .ok rs => .ok ((rs.map (tkMut T)).map Line.record)

/-- the two rewrites in the orchestrator's fixed order, on file contents -/
def rewritePair (ep tk : List Line) (T : List String) : Except Unit (List Line × List Line) :=
  match updateEpisodesLines ep T with
  | .error e => .error e
  | .ok ep2 =>
    match updateTasksLines tk T with
    | .error e => .error e
    | .ok tk2 => .ok (ep2, tk2)

/-- Python `str.strip()` on the character list of a string -/
def trimCh (l : List Char) : List Char :=
  ((l.dropWhile Char.isWhitespace).reverse.dropWhile Char.isWhitespace).reverse

/-- Python `str.strip()` -/
def pyStrip (s : String) : String :=
  ⟨trimCh s.data⟩

/-- Python `str.split(',')` on a character list -/
def splitCommaCh : List Char → List (List Char)
  | [] => [[]]
  | c :: rest =>
    if c = ',' then [] :: splitCommaCh rest
    else (c :: (splitCommaCh rest).headD []) :: (splitCommaCh rest).tail

/-- the comma branch of `parse_task_input`: split on commas, strip each
piece, drop pieces that strip to nothing -/
def commaSplitClean (t : String) : List String :=
  ((splitCommaCh t.data).map (fun p => pyStrip ⟨p⟩)).filter (fun x => x != "")

/-- single-quote character -/
def squote : Char := Char.ofNat 39

/-- double-quote character -/
def dquote : Char := Char.ofNat 34

/-- backslash character -/
def bslash : Char := Char.ofNat 92

/-- the common single-character escapes of Python string literals; other
escape sequences make the model reject the literal -/
def unescapeChar (c : Char) : Option Char :=
  if c = bslash then some bslash
  else if c = squote then some squote
  else if c = dquote then some dquote
  else if c = 'n' then some (Char.ofNat 10)
  else if c = 't' then some (Char.ofNat 9)
  else if c = 'r' then some (Char.ofNat 13)
  else none

/-- scan the body of a quoted string literal with quote character `q`,
returning the decoded characters and the input remaining after the
closing quote; fuelled (callers pass the input length) -/
def scanStrF : Nat → Char → List Char → Option (List Char × List Char)
  | 0, _, _ => none
  | _ + 1, _, [] => none
  | fuel + 1, q, c :: rest =>
    if c = q then some ([], rest)
    else if c = bslash then
      match rest with
      | [] => none
      | e :: rest2 =>
        (unescapeChar e).bind (fun ch =>
          (scanStrF fuel q rest2).map (fun pr => (ch :: pr.1, pr.2)))
    else (scanStrF fuel q rest).map (fun pr => (c :: pr.1, pr.2))

/-- scan the element list of a Python list literal whose opening bracket
has been consumed: quoted strings separated by commas, optional trailing
comma, closing bracket; returns the elements and the remaining input -/
def scanListF : Nat → List Char → Option (List String × List Char)
  | 0, _ => none
  | fuel + 1, l =>
    let l1 := l.dropWhile Char.isWhitespace
    match l1 with
    | [] => none
    | c :: r =>
      if c = ']' then some ([], r)
      else if c = squote ∨ c = dquote then
        match scanStrF (r.length + 1) c r with
        | none => none
        | some (body, r2) =>
          let r3 := r2.dropWhile Char.isWhitespace
          match r3 with
          | ',' :: r4 => (scanListF fuel r4).map (fun pr => (String.mk body :: pr.1, pr.2))
          | ']' :: r4 => some ([String.mk body], r4)
          | _ => none
      else none

/-- Model of `ast.literal_eval` restricted to the accepted shape: the
evaluation succeeds with a list whose elements are all strings.  A
literal of any other kind (or a syntax error) yields `none`, on which
`parse_task_input` falls through to the comma branch, exactly as the
`isinstance` checks and the `except (ValueError, SyntaxError)` handler
do.  String literals support the common single-character escapes only. -/
def literalStrList (t : String) : Option (List String) :=
  match t.data.dropWhile Char.isWhitespace with
  | '[' :: r =>
    match scanListF (r.length + 1) r with
    | some (xs, r2) => if (r2.dropWhile Char.isWhitespace).isEmpty then some xs else none
    | none => none
  | _ => none

/-- Python `s.startswith('[')`, via the first character -/
def headCh (s : String) : Option Char :=
  s.data.head?

/-- Python `s.endswith(']')`, via the last character -/
def lastCh (s : String) : Option Char :=
  s.data.getLast?

/-- the guarded bracket branch of `parse_task_input`:
`task_input.startswith('[') and task_input.endswith(']')` and the literal
evaluates to a list of strings -/
def tryBracketList (t : String) : Option (List String) :=
  if headCh t == some '[' && lastCh t == some ']' then literalStrList t else none

/-- the parser `parse_task_input`: strip; try the bracketed list literal; else split
on commas when a comma is present; else the stripped input itself as a
one-element list -/
def parse_task_input (s : String) : List String :=
  let t := pyStrip s
  match tryBracketList t with
  | some l => l
  | none =>
    if t.data.any (fun c => c == ',') then commaSplitClean t
    else [t]

/-- The filesystem: existing directories and regular files with their
contents.  The utility assumes exclusive access, so one association list
of paths suffices. -/
structure FS where
  dirs : List String
  files : List (String × List Line)
deriving DecidableEq

/-- file existence and content lookup -/
def FS.read (fs : FS) (p : String) : Option (List Line) :=
  lookupKV p fs.files

/-- whole-file (over)write, creating the file when absent -/
def FS.write (fs : FS) (p : String) (c : List Line) : FS :=
  { fs with files := setKV fs.files p c }

/-- the operation `pathlib.Path.with_suffix` on a path string: drop the final extension
(the segment from the last dot) and append `suf`; when there is no
extension (no dot, a leading dot only, or a trailing dot) just append.
The model reads the whole path; it agrees with `pathlib` whenever the
last dot of the path lies inside its final component, which holds for
every path this program builds. -/
def withSuffixCh (l suf : List Char) : List Char :=
  let r := l.reverse
  let rest := r.dropWhile (fun c => c != '.')
  if rest.tail.isEmpty || r.headD '.' == '.' then l ++ suf
  else rest.tail.reverse ++ suf

/-- the operation `Path.with_suffix` lifted to strings -/
def withSuffix (p suf : String) : String :=
  ⟨withSuffixCh p.data suf.data⟩

/-- the function `update_episodes_jsonl` as a filesystem transformer: read the whole
file (errors propagate before anything is written), then copy the
original to the `.jsonl.backup` sibling when requested, then overwrite
the file with the rewritten records -/
def update_episodes_jsonl (fs : FS) (episodes_file : String) (new_tasks : List String)
    (create_backup : Bool) : Except Unit FS :=
  match fs.read episodes_file with
  | none => .error ()
  | some lines =>
    match updateEpisodesLines lines new_tasks with
    | .error e => .error e
    | .ok out =>
      let fs1 := if create_backup then fs.write (withSuffix episodes_file ".jsonl.backup") lines else fs
      .ok (fs1.write episodes_file out)

/-- the function `update_tasks_jsonl` as a filesystem transformer -/
def update_tasks_jsonl (fs : FS) (tasks_file : String) (new_tasks : List String)
    (create_backup : Bool) : Except Unit FS :=
  match fs.read tasks_file with
  | none => .error ()
  | some lines =>
    match updateTasksLines lines new_tasks with
    | .error e => .error e
    | .ok out =>
      let fs1 := if create_backup then fs.write (withSuffix tasks_file ".jsonl.backup") lines else fs
      .ok (fs1.write tasks_file out)

/-- the path `dataset_path / "meta"` -/
def metaPath (d : String) : String := d ++ "/meta"

/-- the path `meta_dir / "episodes.jsonl"` -/
def episodesPath (d : String) : String := metaPath d ++ "/episodes.jsonl"

/-- the path `meta_dir / "tasks.jsonl"` -/
def tasksPath (d : String) : String := metaPath d ++ "/tasks.jsonl"

/-- stand-in for the message of the `json.JSONDecodeError` (or the
`TypeError` on a non-object line) raised while reading a file; the
program only forwards it, its text is irrelevant to the claims -/
def jsonErrMsg : String := "Expecting value: line 1 column 1 (char 0)"

/-- the orchestrator `change_task_description`: validate the four paths in order, parse
the task argument, rewrite the episodes file then the tasks file.
Returns the resulting filesystem and the message of the raised error, if
any; on an error the filesystem returned is the one at the raise site. -/
def change_task_description (fs : FS) (dataset_dir : String) (new_tasks : String)
    (create_backup : Bool) : FS × Option String :=
  if !(fs.dirs.contains dataset_dir) then
    (fs, some ("Dataset directory not found: " ++ dataset_dir))
  else if !(fs.dirs.contains (metaPath dataset_dir)) then
    (fs, some ("Meta directory not found: " ++ metaPath dataset_dir))
  else if (fs.read (episodesPath dataset_dir)).isNone then
    (fs, some ("Episodes file not found: " ++ episodesPath dataset_dir))
  else if (fs.read (tasksPath dataset_dir)).isNone then
    (fs, some ("Tasks file not found: " ++ tasksPath dataset_dir))
  else
    let parsed := parse_task_input new_tasks
    match update_episodes_jsonl fs (episodesPath dataset_dir) parsed create_backup with
    | .error _ => (fs, some jsonErrMsg)
    | .ok fs1 =>
      match update_tasks_jsonl fs1 (tasksPath dataset_dir) parsed create_backup with
      | .error _ => (fs1, some jsonErrMsg)
      | .ok fs2 => (fs2, none)

/-- the `__main__` entry point: run `change_task_description`, catch any
error, print `❌ Error: ...` and exit 1; exit 0 otherwise.  Returns the
final filesystem, the exit code, and the failure line, if any. -/
def runScript (fs : FS) (dataset_dir : String) (new_tasks : String)
    (create_backup : Bool) : FS × Nat × Option String :=
  match change_task_description fs dataset_dir new_tasks create_backup with
  | (fs1, none) => (fs1, 0, none)
  | (fs1, some e) => (fs1, 1, some ("❌ Error: " ++ e))



/-- a sample episode record, as in the spec scenarios -/
def sampleEp : Rec := [("episode_index", JVal.num 0), ("tasks", JVal.strArr ["old"])]

/-- a sample task record, as in the spec scenarios -/
def sampleTk : Rec := [("task_index", JVal.num 0), ("task", JVal.str "old")]

/-- a sample dataset filesystem whose tasks file has a malformed line -/
def sampleFS : FS :=
  FS.mk ["ds", "ds/meta"]
    [("ds/meta/episodes.jsonl", [Line.record sampleEp]),
     ("ds/meta/tasks.jsonl", [Line.malformed])]

/-- a sample well-formed dataset filesystem -/
def sampleFS2 : FS :=
  FS.mk ["ds", "ds/meta"]
    [("ds/meta/episodes.jsonl", [Line.record sampleEp]),
     ("ds/meta/tasks.jsonl", [Line.record sampleTk])]

theorem lookupKV_setKV_self {β : Type} (m : List (String × β)) (k : String) (v : β) :
    lookupKV k (setKV m k v) = some v := by
  induction m with
  | nil => simp [setKV, lookupKV]
  | cons a m ih =>
    obtain ⟨a1, a2⟩ := a
    by_cases h : a1 = k
    · simp [setKV, lookupKV, h]
    · simp [setKV, lookupKV, h, ih]

theorem lookupKV_setKV_ne {β : Type} (m : List (String × β)) (k : String) (v : β)
    (k' : String) (h : k' ≠ k) :
    lookupKV k' (setKV m k v) = lookupKV k' m := by
  have h' : k ≠ k' := fun hh => h hh.symm
  induction m with
  | nil => simp [setKV, lookupKV, h']
  | cons a m ih =>
    obtain ⟨a1, a2⟩ := a
    by_cases ha : a1 = k
    · subst ha
      simp [setKV, lookupKV, h']
    · simp [setKV, lookupKV, ha, ih]

theorem setKV_idem {β : Type} (m : List (String × β)) (k : String) (v : β) :
    setKV (setKV m k v) k v = setKV m k v := by
  induction m with
  | nil => simp [setKV]
  | cons a m ih =>
    obtain ⟨a1, a2⟩ := a
    by_cases h : a1 = k
    · simp [setKV, h]
    · simp [setKV, h, ih]

theorem getField_setField_self (r : Rec) (k : String) (v : JVal) :
    getField (setField r k v) k = some v :=
  lookupKV_setKV_self r k v

theorem getField_setField_ne (r : Rec) (k : String) (v : JVal) (k' : String) (h : k' ≠ k) :
    getField (setField r k v) k' = getField r k' :=
  lookupKV_setKV_ne r k v k' h

theorem setField_idem (r : Rec) (k : String) (v : JVal) :
    setField (setField r k v) k v = setField r k v :=
  setKV_idem r k v

theorem epMut_idem (T : List String) (r : Rec) : epMut T (epMut T r) = epMut T r :=
  setField_idem r "tasks" (JVal.strArr T)

theorem tkMut_idem (T : List String) (r : Rec) : tkMut T (tkMut T r) = tkMut T r :=
  setField_idem r "task" (JVal.str (T.headD ""))

theorem FS.read_write_self (fs : FS) (p : String) (c : List Line) :
    (fs.write p c).read p = some c :=
  lookupKV_setKV_self fs.files p c

theorem FS.read_write_ne (fs : FS) (p : String) (c : List Line) (q : String) (h : q ≠ p) :
    (fs.write p c).read q = fs.read q :=
  lookupKV_setKV_ne fs.files p c q h

theorem readEpisodes_map_record (rs : List Rec) :
    readEpisodes (rs.map Line.record) = .ok rs := by
  induction rs with
  | nil => rfl
  | cons r rs ih => simp [readEpisodes, ih]

theorem readEpisodes_error_of_blank (lines : List Line) (h : Line.blank ∈ lines) :
    readEpisodes lines = .error () := by
  induction lines with
  | nil => cases h
  | cons l rest ih =>
    cases l with
    | blank => rfl
    | record r =>
      have hr : Line.blank ∈ rest := by simpa using h
      simp [readEpisodes, ih hr]
    | malformed => rfl

theorem recsOf_nil : recsOf [] = [] := rfl

theorem recsOf_map_record (rs : List Rec) : recsOf (rs.map Line.record) = rs := by
  induction rs with
  | nil => rfl
  | cons r rs ih => simp [recsOf, List.filterMap_cons] at ih ⊢; exact ih

theorem readTasks_ok (lines : List Line) (h : Line.malformed ∉ lines) :
    readTasks lines = .ok (recsOf lines) := by
  induction lines with
  | nil => rfl
  | cons l rest ih =>
    have hr : Line.malformed ∉ rest := fun hm => h (List.mem_cons_of_mem _ hm)
    cases l with
    | blank => simpa [readTasks, recsOf, List.filterMap_cons] using ih hr
    | record r => simp [readTasks, recsOf, List.filterMap_cons, ih hr]
    | malformed => exact absurd (List.mem_cons_self _ _) h

theorem readTasks_error_of_malformed (lines : List Line) (h : Line.malformed ∈ lines) :
    readTasks lines = .error () := by
  induction lines with
  | nil => cases h
  | cons l rest ih =>
    cases l with
    | blank =>
      have hr : Line.malformed ∈ rest := by simpa using h
      simp [readTasks, ih hr]
    | record r =>
      have hr : Line.malformed ∈ rest := by simpa using h
      simp [readTasks, ih hr]
    | malformed => rfl

theorem readTasks_map_record (rs : List Rec) :
    readTasks (rs.map Line.record) = .ok rs := by
  induction rs with
  | nil => rfl
  | cons r rs ih => simp [readTasks, ih]

theorem strAppendAssoc : ∀ (a b c : String), a ++ b ++ c = a ++ (b ++ c)
  | ⟨la⟩, ⟨lb⟩, ⟨lc⟩ => congrArg String.mk (List.append_assoc la lb lc)

theorem strAppendLeftCancel : ∀ {a b c : String}, a ++ b = a ++ c → b = c
  | ⟨la⟩, ⟨lb⟩, ⟨lc⟩, h => by
    have h2 : la ++ lb = la ++ lc := congrArg String.data h
    exact congrArg String.mk (List.append_cancel_left h2)

theorem strAppendNe (d : String) {x y : String} (h : x ≠ y) : d ++ x ≠ d ++ y :=
  fun hd => h (strAppendLeftCancel hd)

theorem episodesPath_eq (d : String) : episodesPath d = d ++ "/meta/episodes.jsonl" := by
  show d ++ "/meta" ++ "/episodes.jsonl" = _
  rw [strAppendAssoc]
  exact congrArg (fun x => d ++ x) (by decide)

theorem tasksPath_eq (d : String) : tasksPath d = d ++ "/meta/tasks.jsonl" := by
  show d ++ "/meta" ++ "/tasks.jsonl" = _
  rw [strAppendAssoc]
  exact congrArg (fun x => d ++ x) (by decide)

theorem dropWhile_append_all {α : Type} (p : α → Bool) (j x : List α)
    (h : ∀ c ∈ j, p c = true) :
    (j ++ x).dropWhile p = x.dropWhile p := by
  induction j with
  | nil => rfl
  | cons c j ih =>
    have hc : p c = true := h c (List.mem_cons_self _ _)
    rw [List.cons_append, List.dropWhile_cons, if_pos hc]
    exact ih (fun a ha => h a (List.mem_cons_of_mem _ ha))

theorem mem_dropWhile_of_not {α : Type} (p : α → Bool) (l : List α) (c : α)
    (hc : c ∈ l) (hp : p c = false) : c ∈ l.dropWhile p := by
  induction l with
  | nil => cases hc
  | cons a l ih =>
    rw [List.dropWhile_cons]
    by_cases hpa : p a = true
    · rw [if_pos hpa]
      have hca : c ≠ a := fun he => by rw [he] at hp; rw [hp] at hpa; cases hpa
      have : c ∈ l := by
        cases hc with
        | head => exact absurd rfl hca
        | tail _ h' => exact h'
      exact ih this
    · rw [if_neg hpa]
      exact hc

theorem mem_of_mem_dropWhile {α : Type} (p : α → Bool) (l : List α) (c : α)
    (h : c ∈ l.dropWhile p) : c ∈ l := by
  induction l with
  | nil => exact h
  | cons a l ih =>
    rw [List.dropWhile_cons] at h
    by_cases hpa : p a = true
    · rw [if_pos hpa] at h
      exact List.mem_cons_of_mem _ (ih h)
    · rw [if_neg hpa] at h
      exact h

theorem mem_trimCh_of (l : List Char) (c : Char) (hc : c ∈ l)
    (hw : c.isWhitespace = false) : c ∈ trimCh l := by
  unfold trimCh
  rw [List.mem_reverse]
  apply mem_dropWhile_of_not _ _ _ _ hw
  rw [List.mem_reverse]
  exact mem_dropWhile_of_not _ _ _ hc hw

theorem mem_of_mem_trimCh (l : List Char) (c : Char) (h : c ∈ trimCh l) : c ∈ l := by
  unfold trimCh at h
  rw [List.mem_reverse] at h
  have h1 := mem_of_mem_dropWhile _ _ _ h
  rw [List.mem_reverse] at h1
  exact mem_of_mem_dropWhile _ _ _ h1

theorem dropWhile_all_nil {α : Type} (p : α → Bool) (l : List α)
    (h : ∀ c ∈ l, p c = true) : l.dropWhile p = [] := by
  induction l with
  | nil => rfl
  | cons a l ih =>
    rw [List.dropWhile_cons, if_pos (h a (List.mem_cons_self _ _))]
    exact ih (fun c hc => h c (List.mem_cons_of_mem _ hc))

theorem trimCh_all_ws (l : List Char) (h : ∀ c ∈ l, c.isWhitespace = true) :
    trimCh l = [] := by
  unfold trimCh
  rw [dropWhile_all_nil _ _ h]
  rfl

theorem splitCommaCh_ne_nil (l : List Char) : splitCommaCh l ≠ [] := by
  induction l with
  | nil => simp [splitCommaCh]
  | cons c rest ih =>
    by_cases hc : c = ','
    · simp [splitCommaCh, hc]
    · simp [splitCommaCh, hc]

theorem mem_splitCommaCh (l : List Char) (p : List Char) (c : Char)
    (hp : p ∈ splitCommaCh l) (hc : c ∈ p) : c ∈ l ∧ c ≠ ',' := by
  induction l generalizing p with
  | nil =>
    simp [splitCommaCh] at hp
    subst hp
    cases hc
  | cons a rest ih =>
    by_cases ha : a = ','
    · subst ha
      simp only [splitCommaCh, if_pos rfl] at hp
      rcases List.mem_cons.mp hp with h1 | h1
      · subst h1
        cases hc
      · obtain ⟨g1, g2⟩ := ih p h1 hc
        exact ⟨List.mem_cons_of_mem _ g1, g2⟩
    · simp only [splitCommaCh, if_neg ha] at hp
      rcases List.mem_cons.mp hp with h1 | h1
      · subst h1
        rcases List.mem_cons.mp hc with h2 | h2
        · subst h2
          exact ⟨List.mem_cons_self _ _, ha⟩
        · have hne := splitCommaCh_ne_nil rest
          obtain ⟨q, qs, hq⟩ := List.exists_cons_of_ne_nil hne
          have hqmem : q ∈ splitCommaCh rest := by
            rw [hq]
            exact List.mem_cons_self _ _
          have hcq : c ∈ q := by
            rw [hq] at h2
            simpa using h2
          obtain ⟨g1, g2⟩ := ih q hqmem hcq
          exact ⟨List.mem_cons_of_mem _ g1, g2⟩
      · have hpmem : p ∈ splitCommaCh rest := List.mem_of_mem_tail h1
        obtain ⟨g1, g2⟩ := ih p hpmem hc
        exact ⟨List.mem_cons_of_mem _ g1, g2⟩

theorem withSuffixCh_eq (a cs j m suf : List Char)
    (hcs : cs.reverse = j ++ '.' :: m) (hj : ∀ c ∈ j, (c != '.') = true)
    (hj0 : j ≠ []) (hm : m ≠ []) :
    withSuffixCh (a ++ cs) suf = (a ++ m.reverse) ++ suf := by
  obtain ⟨j0, j', rfl⟩ := List.exists_cons_of_ne_nil hj0
  obtain ⟨m0, m', rfl⟩ := List.exists_cons_of_ne_nil hm
  have hj' : ∀ c ∈ j', (c != '.') = true := fun c hc => hj c (List.mem_cons_of_mem _ hc)
  have hj0' : (j0 != '.') = true := hj j0 (List.mem_cons_self _ _)
  have hj0ne : (j0 == '.') = false := by
    cases hbe : j0 == '.'
    · rfl
    · rw [bne, hbe] at hj0'
      cases hj0'
  have hdrop : List.dropWhile (fun c => c != '.') (j0 :: (j' ++ '.' :: (m0 :: (m' ++ a.reverse))))
      = '.' :: (m0 :: (m' ++ a.reverse)) := by
    rw [List.dropWhile_cons, if_pos hj0', dropWhile_append_all _ j' _ hj',
      List.dropWhile_cons, if_neg (by decide)]
  unfold withSuffixCh
  rw [List.reverse_append, hcs]
  simp only [List.cons_append, List.append_assoc]
  rw [hdrop]
  simp [List.isEmpty, hj0ne, List.reverse_cons, List.reverse_append, List.append_assoc]

theorem withSuffix_episodes (d : String) :
    withSuffix (d ++ "/meta/episodes.jsonl") ".jsonl.backup" = d ++ "/meta/episodes.jsonl.backup" := by
  obtain ⟨a⟩ := d
  have h := withSuffixCh_eq a ("/meta/episodes.jsonl".data) ("lnosj".data)
    ("sedosipe/atem/".data) (".jsonl.backup".data) (by decide) (by decide) (by decide) (by decide)
  show String.mk (withSuffixCh (a ++ "/meta/episodes.jsonl".data) ".jsonl.backup".data)
      = String.mk (a ++ "/meta/episodes.jsonl.backup".data)
  rw [h, List.append_assoc]
  exact congrArg (fun x => String.mk (a ++ x)) (by decide)

theorem withSuffix_tasks (d : String) :
    withSuffix (d ++ "/meta/tasks.jsonl") ".jsonl.backup" = d ++ "/meta/tasks.jsonl.backup" := by
  obtain ⟨a⟩ := d
  have h := withSuffixCh_eq a ("/meta/tasks.jsonl".data) ("lnosj".data)
    ("sksat/atem/".data) (".jsonl.backup".data) (by decide) (by decide) (by decide) (by decide)
  show String.mk (withSuffixCh (a ++ "/meta/tasks.jsonl".data) ".jsonl.backup".data)
      = String.mk (a ++ "/meta/tasks.jsonl.backup".data)
  rw [h, List.append_assoc]
  exact congrArg (fun x => String.mk (a ++ x)) (by decide)

theorem update_episodes_jsonl_ok (fs : FS) (p : String) (lines out : List Line)
    (T : List String) (b : Bool)
    (hread : fs.read p = some lines) (hup : updateEpisodesLines lines T = .ok out) :
    update_episodes_jsonl fs p T b
      = .ok ((if b then fs.write (withSuffix p ".jsonl.backup") lines else fs).write p out) := by
  simp [update_episodes_jsonl, hread, hup]

theorem update_episodes_jsonl_err (fs : FS) (p : String) (lines : List Line)
    (T : List String) (b : Bool) (e : Unit)
    (hread : fs.read p = some lines) (hup : updateEpisodesLines lines T = .error e) :
    update_episodes_jsonl fs p T b = .error e := by
  simp [update_episodes_jsonl, hread, hup]

theorem update_tasks_jsonl_ok (fs : FS) (p : String) (lines out : List Line)
    (T : List String) (b : Bool)
    (hread : fs.read p = some lines) (hup : updateTasksLines lines T = .ok out) :
    update_tasks_jsonl fs p T b
      = .ok ((if b then fs.write (withSuffix p ".jsonl.backup") lines else fs).write p out) := by
  simp [update_tasks_jsonl, hread, hup]

theorem update_tasks_jsonl_err (fs : FS) (p : String) (lines : List Line)
    (T : List String) (b : Bool) (e : Unit)
    (hread : fs.read p = some lines) (hup : updateTasksLines lines T = .error e) :
    update_tasks_jsonl fs p T b = .error e := by
  simp [update_tasks_jsonl, hread, hup]

theorem pyStrip_data (s : String) : (pyStrip s).data = trimCh s.data := rfl

theorem comma_mem_strip (s : String) (h : ',' ∈ s.data) : ',' ∈ (pyStrip s).data := by
  rw [pyStrip_data]
  exact mem_trimCh_of _ _ h (by decide)

theorem any_comma_of_mem (l : List Char) (h : ',' ∈ l) :
    (l.any (fun c => c == ',')) = true :=
  List.any_eq_true.mpr ⟨',', h, by simp⟩

theorem tryBracketList_eq_none (t : String) (h : ∀ c ∈ t.data, ¬c = '[') :
    tryBracketList t = none := by
  have hhead : (headCh t == some '[') = false := by
    unfold headCh
    cases hd : t.data.head? with
    | none => rfl
    | some c =>
      have hmem : c ∈ t.data := List.mem_of_mem_head? (by rw [hd]; exact rfl)
      have hc : ¬c = '[' := h c hmem
      simpa using hc
  unfold tryBracketList
  rw [hhead, Bool.false_and]
  rfl

theorem parse_comma_branch (s : String) (hc : ',' ∈ s.data)
    (hl : tryBracketList (pyStrip s) = none) :
    parse_task_input s = commaSplitClean (pyStrip s) := by
  have hany := any_comma_of_mem _ (comma_mem_strip s hc)
  simp [parse_task_input, hl, hany]

/-- C5: for every input string that contains a comma and is not parsed as a
bracketed list literal of strings, `parse_task_input` returns the pieces
obtained by splitting on commas, trimming whitespace from each piece, and
dropping pieces that are empty after trimming, in their original order; in
particular parsing "a, b ,,c" returns ["a","b","c"]. -/
theorem C5_comma_split (s : String) (hc : ',' ∈ s.data)
    (hl : tryBracketList (pyStrip s) = none) :
    parse_task_input s = commaSplitClean (pyStrip s) ∧
    parse_task_input "a, b ,,c" = ["a", "b", "c"] :=
  ⟨parse_comma_branch s hc hl, by decide⟩

theorem C5_comma_split_witness :
    (',' ∈ ("x, y" : String).data) ∧ tryBracketList (pyStrip "x, y") = none ∧
    (parse_task_input "x, y" = commaSplitClean (pyStrip "x, y") ∧
      parse_task_input "a, b ,,c" = ["a", "b", "c"]) :=
  ⟨by decide, by decide, C5_comma_split "x, y" (by decide) (by decide)⟩

/-- C6 counterexample: the all-whitespace input " " consists only of commas
and/or whitespace characters, yet the parser returns [""], not the empty
sequence (the comma branch never runs because no comma is present, and the
single-task branch returns the stripped input, the empty string). -/
theorem C6_cex :
    (∀ c ∈ (" " : String).data, c = ',' ∨ c.isWhitespace = true) ∧
    parse_task_input " " ≠ [] := by
  constructor
  · decide
  · decide

/-- C6 (amended): for every input string consisting only of commas and/or
whitespace characters that contains at least one comma, the parser returns
the empty sequence.  (Without a comma, such an input reaches the
single-task branch and yields a one-element sequence holding the empty
string.) -/
theorem C6_commas_ws_empty (s : String)
    (hall : ∀ c ∈ s.data, c = ',' ∨ c.isWhitespace = true)
    (hc : ',' ∈ s.data) : parse_task_input s = [] := by
  have hallt : ∀ c ∈ (pyStrip s).data, c = ',' ∨ c.isWhitespace = true := by
    intro c hm
    exact hall c (mem_of_mem_trimCh _ _ (by rwa [pyStrip_data] at hm))
  have hbr : tryBracketList (pyStrip s) = none := by
    apply tryBracketList_eq_none
    intro c hm hbrk
    rcases hallt c hm with h1 | h1
    · rw [hbrk] at h1
      exact absurd h1 (by decide)
    · rw [hbrk] at h1
      exact absurd h1 (by decide)
  rw [parse_comma_branch s hc hbr]
  unfold commaSplitClean
  apply List.filter_eq_nil_iff.mpr
  intro x hx
  obtain ⟨p, hp, rfl⟩ := List.mem_map.mp hx
  have hws : ∀ c ∈ p, c.isWhitespace = true := by
    intro c hcp
    obtain ⟨hmem, hne⟩ := mem_splitCommaCh _ p c hp hcp
    rcases hallt c (by rwa [pyStrip_data] at hmem) with h1 | h1
    · exact absurd h1 hne
    · exact h1
  have hnil : trimCh p = [] := trimCh_all_ws p hws
  have hz : pyStrip ⟨p⟩ = "" := by
    unfold pyStrip
    rw [show (String.mk p).data = p from rfl, hnil]
  simp [hz]

theorem C6_commas_ws_empty_witness :
    (∀ c ∈ (",, ," : String).data, c = ',' ∨ c.isWhitespace = true) ∧
    (',' ∈ (",, ," : String).data) ∧ parse_task_input ",, ," = [] :=
  ⟨by decide, by decide, C6_commas_ws_empty ",, ," (by decide) (by decide)⟩

/-- C7 counterexample: on the empty input the parser returns [""], whose
only element is the empty string, so not every element of every parse
result is non-empty. -/
theorem C7_cex : parse_task_input "" = [""] ∧ ("" : String) ∈ parse_task_input "" := by
  constructor
  · decide
  · decide

/-- C7 (amended): every element of the sequence returned by the
comma-splitting branch is non-empty, i.e. for every input that contains a
comma and is not parsed as a bracketed list literal of strings, every
element of the result is a non-empty string.  (The bracketed-literal
branch returns its elements verbatim and the single-task branch wraps the
stripped input, so both can produce empty elements.) -/
theorem C7_comma_elements_nonempty (s : String) (hc : ',' ∈ s.data)
    (hl : tryBracketList (pyStrip s) = none) :
    ∀ x ∈ parse_task_input s, x ≠ "" := by
  rw [parse_comma_branch s hc hl]
  intro x hx
  unfold commaSplitClean at hx
  have hf := List.of_mem_filter hx
  simpa using hf

theorem C7_comma_elements_nonempty_witness :
    (',' ∈ ("a,,b" : String).data) ∧ tryBracketList (pyStrip "a,,b") = none ∧
    (∀ x ∈ parse_task_input "a,,b", x ≠ "") :=
  ⟨by decide, by decide, C7_comma_elements_nonempty "a,,b" (by decide) (by decide)⟩

theorem map_epMut_idem (T : List String) (rs : List Rec) :
    (rs.map (epMut T)).map (epMut T) = rs.map (epMut T) := by
  rw [List.map_map]
  apply List.map_congr_left
  intro r _
  exact epMut_idem T r

theorem map_tkMut_idem (T : List String) (rs : List Rec) :
    (rs.map (tkMut T)).map (tkMut T) = rs.map (tkMut T) := by
  rw [List.map_map]
  apply List.map_congr_left
  intro r _
  exact tkMut_idem T r

theorem updateEpisodesLines_of_records (rs : List Rec) (T : List String) :
    updateEpisodesLines (rs.map Line.record) T = .ok ((rs.map (epMut T)).map Line.record) := by
  unfold updateEpisodesLines
  rw [readEpisodes_map_record]

theorem updateTasksLines_of_records (rs : List Rec) (T : List String) :
    updateTasksLines (rs.map Line.record) T = .ok ((rs.map (tkMut T)).map Line.record) := by
  unfold updateTasksLines
  rw [readTasks_map_record]

theorem updateEpisodesLines_ok_inv (lines out : List Line) (T : List String)
    (h : updateEpisodesLines lines T = .ok out) :
    ∃ rs, readEpisodes lines = .ok rs ∧ out = (rs.map (epMut T)).map Line.record := by
  unfold updateEpisodesLines at h
  cases hR : readEpisodes lines with
  | error e => rw [hR] at h; cases h
  | ok rs =>
    rw [hR] at h
    refine ⟨rs, rfl, ?_⟩
    injection h with h'
    exact h'.symm

theorem updateTasksLines_ok_inv (lines out : List Line) (T : List String)
    (h : updateTasksLines lines T = .ok out) :
    ∃ rs, readTasks lines = .ok rs ∧ out = (rs.map (tkMut T)).map Line.record := by
  unfold updateTasksLines at h
  cases hR : readTasks lines with
  | error e => rw [hR] at h; cases h
  | ok rs =>
    rw [hR] at h
    refine ⟨rs, rfl, ?_⟩
    injection h with h'
    exact h'.symm

theorem rewritePair_ok_inv (ep tk ep2 tk2 : List Line) (T : List String)
    (h : rewritePair ep tk T = .ok (ep2, tk2)) :
    updateEpisodesLines ep T = .ok ep2 ∧ updateTasksLines tk T = .ok tk2 := by
  unfold rewritePair at h
  cases hE : updateEpisodesLines ep T with
  | error e => rw [hE] at h; cases h
  | ok a =>
    rw [hE] at h
    cases hT : updateTasksLines tk T with
    | error e => rw [hT] at h; cases h
    | ok b =>
      rw [hT] at h
      injection h with h'
      injection h' with h1 h2
      subst h1
      subst h2
      exact ⟨rfl, rfl⟩


/-- C1: for every episodes file in which every line parses as a JSON
record, rewriting it with a resolved task sequence T and then re-reading
yields the same number of records, in the same order, each with `tasks`
equal to T and every other field equal to the corresponding field of the
original record. -/
theorem C1_episodes_roundtrip (rs : List Rec) (T : List String) (k : String)
    (hk : k ≠ "tasks") :
    updateEpisodesLines (rs.map Line.record) T = .ok ((rs.map (epMut T)).map Line.record) ∧
    readEpisodes ((rs.map (epMut T)).map Line.record) = .ok (rs.map (epMut T)) ∧
    (rs.map (epMut T)).length = rs.length ∧
    (∀ r ∈ rs, getField (epMut T r) "tasks" = some (JVal.strArr T) ∧
      getField (epMut T r) k = getField r k) := by
  refine ⟨updateEpisodesLines_of_records rs T, readEpisodes_map_record _, by simp, ?_⟩
  intro r _
  exact ⟨getField_setField_self r "tasks" (JVal.strArr T),
    getField_setField_ne r "tasks" (JVal.strArr T) k hk⟩

theorem C1_episodes_roundtrip_witness :
    ("episode_index" : String) ≠ "tasks" ∧
    (updateEpisodesLines ([sampleEp].map Line.record) ["new"]
        = .ok (([sampleEp].map (epMut ["new"])).map Line.record) ∧
      readEpisodes (([sampleEp].map (epMut ["new"])).map Line.record)
        = .ok ([sampleEp].map (epMut ["new"])) ∧
      ([sampleEp].map (epMut ["new"])).length = [sampleEp].length ∧
      (∀ r ∈ [sampleEp], getField (epMut ["new"] r) "tasks" = some (JVal.strArr ["new"]) ∧
        getField (epMut ["new"] r) "episode_index" = getField r "episode_index")) :=
  ⟨by decide, C1_episodes_roundtrip [sampleEp] ["new"] "episode_index" (by decide)⟩

/-- C2: for every tasks file whose non-blank lines all parse as JSON
records and every resolved task sequence T, the rewrite sets the `task`
field of every record to the first element of T (the empty string when T
is empty) and leaves every other field of each record unchanged. -/
theorem C2_tasks_rewrite (lines : List Line) (T : List String) (k : String)
    (hnb : Line.malformed ∉ lines) (hk : k ≠ "task") :
    updateTasksLines lines T = .ok (((recsOf lines).map (tkMut T)).map Line.record) ∧
    (∀ r ∈ recsOf lines,
      getField (tkMut T r) "task" = some (JVal.str (T.headD "")) ∧
      (∀ t ts, T = t :: ts → getField (tkMut T r) "task" = some (JVal.str t)) ∧
      (T = [] → getField (tkMut T r) "task" = some (JVal.str "")) ∧
      getField (tkMut T r) k = getField r k) := by
  constructor
  · unfold updateTasksLines
    rw [readTasks_ok lines hnb]
  · intro r _
    refine ⟨getField_setField_self r "task" _, ?_, ?_,
      getField_setField_ne r "task" _ k hk⟩
    · intro t ts hT
      subst hT
      exact getField_setField_self r "task" _
    · intro hT
      subst hT
      exact getField_setField_self r "task" _

theorem C2_tasks_rewrite_witness :
    (Line.malformed ∉ [Line.blank, Line.record sampleTk]) ∧
    ("task_index" : String) ≠ "task" ∧
    (updateTasksLines [Line.blank, Line.record sampleTk] ["new"]
        = .ok (((recsOf [Line.blank, Line.record sampleTk]).map (tkMut ["new"])).map Line.record) ∧
      (∀ r ∈ recsOf [Line.blank, Line.record sampleTk],
        getField (tkMut ["new"] r) "task" = some (JVal.str (["new"].headD "")) ∧
        (∀ t ts, ["new"] = t :: ts → getField (tkMut ["new"] r) "task" = some (JVal.str t)) ∧
        ((["new"] : List String) = [] → getField (tkMut ["new"] r) "task" = some (JVal.str "")) ∧
        getField (tkMut ["new"] r) "task_index" = getField r "task_index")) :=
  ⟨by decide, by decide,
    C2_tasks_rewrite [Line.blank, Line.record sampleTk] ["new"] "task_index" (by decide) (by decide)⟩

/-- C8 counterexample: the claim says both files skip blank lines, but a
blank line in the episodes file makes the read raise
(`json.loads('')` fails); only the tasks read skips it. -/
theorem C8_cex :
    readEpisodes [Line.blank] = .error () ∧ readTasks [Line.blank] = .ok [] := by
  constructor
  · rfl
  · rfl

/-- C8 (amended): the Record Rewriter's read phase silently skips blank
lines in the tasks file only — they are absent from its rewritten output —
while a blank line in the episodes file raises a parse error. -/
theorem C8_blank_lines (lines : List Line) (T : List String)
    (hnb : Line.malformed ∉ lines) :
    updateTasksLines lines T = .ok (((recsOf lines).map (tkMut T)).map Line.record) ∧
    (∀ l ∈ ((recsOf lines).map (tkMut T)).map Line.record, l ≠ Line.blank) ∧
    (Line.blank ∈ lines → readEpisodes lines = .error ()) := by
  refine ⟨?_, ?_, fun hb => readEpisodes_error_of_blank lines hb⟩
  · unfold updateTasksLines
    rw [readTasks_ok lines hnb]
  · intro l hl
    obtain ⟨r, _, rfl⟩ := List.mem_map.mp hl
    intro hcontra
    exact absurd hcontra (by simp)

theorem C8_blank_lines_witness :
    (Line.malformed ∉ [Line.blank, Line.record sampleTk]) ∧
    (updateTasksLines [Line.blank, Line.record sampleTk] ["x"]
        = .ok (((recsOf [Line.blank, Line.record sampleTk]).map (tkMut ["x"])).map Line.record) ∧
      (∀ l ∈ ((recsOf [Line.blank, Line.record sampleTk]).map (tkMut ["x"])).map Line.record,
        l ≠ Line.blank) ∧
      (Line.blank ∈ [Line.blank, Line.record sampleTk] →
        readEpisodes [Line.blank, Line.record sampleTk] = .error ())) :=
  ⟨by decide, C8_blank_lines [Line.blank, Line.record sampleTk] ["x"] (by decide)⟩

/-- C10: the whole rewrite is idempotent — for every pair of well-formed
target files and every resolved task sequence T, running the rewrite of
both files a second time reproduces exactly the contents produced by the
first run. -/
theorem C10_idempotent (ep tk ep2 tk2 : List Line) (T : List String)
    (h : rewritePair ep tk T = .ok (ep2, tk2)) :
    rewritePair ep2 tk2 T = .ok (ep2, tk2) := by
  obtain ⟨hE, hT⟩ := rewritePair_ok_inv ep tk ep2 tk2 T h
  obtain ⟨rs, _, rfl⟩ := updateEpisodesLines_ok_inv _ _ _ hE
  obtain ⟨ss, _, rfl⟩ := updateTasksLines_ok_inv _ _ _ hT
  unfold rewritePair
  rw [updateEpisodesLines_of_records, map_epMut_idem,
    updateTasksLines_of_records, map_tkMut_idem]

theorem C10_idempotent_witness :
    rewritePair [Line.record (epMut ["a"] sampleEp)] [Line.record (tkMut ["a"] sampleTk)] ["a"]
      = .ok ([Line.record (epMut ["a"] sampleEp)], [Line.record (tkMut ["a"] sampleTk)]) :=
  C10_idempotent [Line.record sampleEp] [Line.blank, Line.record sampleTk] _ _ ["a"] (by rfl)

theorem withSuffix_episodesPath (d : String) :
    withSuffix (episodesPath d) ".jsonl.backup" = d ++ "/meta/episodes.jsonl.backup" := by
  rw [episodesPath_eq]
  exact withSuffix_episodes d

theorem withSuffix_tasksPath (d : String) :
    withSuffix (tasksPath d) ".jsonl.backup" = d ++ "/meta/tasks.jsonl.backup" := by
  rw [tasksPath_eq]
  exact withSuffix_tasks d

theorem ne_tk_ep (d : String) : tasksPath d ≠ episodesPath d := by
  rw [tasksPath_eq, episodesPath_eq]
  exact strAppendNe d (by decide)

theorem ne_tk_epB (d : String) : tasksPath d ≠ d ++ "/meta/episodes.jsonl.backup" := by
  rw [tasksPath_eq]
  exact strAppendNe d (by decide)

theorem ne_epB_ep (d : String) : d ++ "/meta/episodes.jsonl.backup" ≠ episodesPath d := by
  rw [episodesPath_eq]
  exact strAppendNe d (by decide)

theorem ne_epB_tk (d : String) : d ++ "/meta/episodes.jsonl.backup" ≠ tasksPath d := by
  rw [tasksPath_eq]
  exact strAppendNe d (by decide)

theorem ne_epB_tkB (d : String) :
    d ++ "/meta/episodes.jsonl.backup" ≠ d ++ "/meta/tasks.jsonl.backup" :=
  strAppendNe d (by decide)

theorem ne_tkB_tk (d : String) : d ++ "/meta/tasks.jsonl.backup" ≠ tasksPath d := by
  rw [tasksPath_eq]
  exact strAppendNe d (by decide)

/-- C3: for every invocation in which the dataset directory, its `meta`
subdirectory, the episodes file, or the tasks file does not exist, the run
aborts with exit code 1 and an error message naming the first missing path
(checked in that order), and no file is modified. -/
theorem C3_validation_order (fs : FS) (d input : String) (b : Bool) :
    (d ∉ fs.dirs →
      runScript fs d input b
        = (fs, 1, some ("❌ Error: " ++ ("Dataset directory not found: " ++ d)))) ∧
    (d ∈ fs.dirs → metaPath d ∉ fs.dirs →
      runScript fs d input b
        = (fs, 1, some ("❌ Error: " ++ ("Meta directory not found: " ++ metaPath d)))) ∧
    (d ∈ fs.dirs → metaPath d ∈ fs.dirs →
      fs.read (episodesPath d) = none →
      runScript fs d input b
        = (fs, 1, some ("❌ Error: " ++ ("Episodes file not found: " ++ episodesPath d)))) ∧
    (d ∈ fs.dirs → metaPath d ∈ fs.dirs →
      ∀ epLines, fs.read (episodesPath d) = some epLines →
        fs.read (tasksPath d) = none →
        runScript fs d input b
          = (fs, 1, some ("❌ Error: " ++ ("Tasks file not found: " ++ tasksPath d)))) := by
  refine ⟨?_, ?_, ?_, ?_⟩
  · intro hd
    simp [runScript, change_task_description, hd]
  · intro hd hm
    simp [runScript, change_task_description, hd, hm]
  · intro hd hm he
    simp [runScript, change_task_description, hd, hm, he]
  · intro hd hm epLines he ht
    simp [runScript, change_task_description, hd, hm, he, ht]

theorem C3_validation_order_witness :
    runScript (FS.mk [] []) "d" "x" false
      = (FS.mk [] [], 1, some ("❌ Error: " ++ ("Dataset directory not found: " ++ "d"))) :=
  (C3_validation_order (FS.mk [] []) "d" "x" false).1 (by decide)

/-- C4: the episodes file is rewritten before the tasks file; each file is
fully read before any write to it, so a file whose read fails is never
partially written (the filesystem is untouched when the episodes read
fails), but if the episodes rewrite succeeds and a line of the tasks file
fails to parse, the run aborts with exit code 1, the episodes file already
overwritten and the tasks file unchanged. -/
theorem C4_ordering_failure (fs : FS) (d input : String) (b : Bool) (tks : List Line)
    (hd : d ∈ fs.dirs) (hm : metaPath d ∈ fs.dirs)
    (ht : fs.read (tasksPath d) = some tks) (hbad : Line.malformed ∈ tks) :
    (∀ eps, fs.read (episodesPath d) = some eps → readEpisodes eps = .error () →
      runScript fs d input b = (fs, 1, some ("❌ Error: " ++ jsonErrMsg))) ∧
    (∀ rs : List Rec, fs.read (episodesPath d) = some (rs.map Line.record) →
      (runScript fs d input b).2.1 = 1 ∧
      (runScript fs d input b).1.read (episodesPath d)
        = some ((rs.map (epMut (parse_task_input input))).map Line.record) ∧
      (runScript fs d input b).1.read (tasksPath d) = some tks) := by
  constructor
  · intro eps he hre
    have hup : updateEpisodesLines eps (parse_task_input input) = .error () := by
      unfold updateEpisodesLines
      rw [hre]
    have herr := update_episodes_jsonl_err fs (episodesPath d) eps
      (parse_task_input input) b () he hup
    simp [runScript, change_task_description, hd, hm, he, ht, herr]
  · intro rs he
    have hup := updateEpisodesLines_of_records rs (parse_task_input input)
    have hok := update_episodes_jsonl_ok fs (episodesPath d) (rs.map Line.record)
      ((rs.map (epMut (parse_task_input input))).map Line.record)
      (parse_task_input input) b he hup
    have htk1 : ((if b then fs.write (withSuffix (episodesPath d) ".jsonl.backup")
          (rs.map Line.record) else fs).write (episodesPath d)
          ((rs.map (epMut (parse_task_input input))).map Line.record)).read (tasksPath d)
        = some tks := by
      rw [FS.read_write_ne _ _ _ _ (ne_tk_ep d)]
      cases b with
      | false => simpa using ht
      | true =>
        rw [if_pos rfl, withSuffix_episodesPath, FS.read_write_ne _ _ _ _ (ne_tk_epB d)]
        exact ht
    have htup : updateTasksLines tks (parse_task_input input) = .error () := by
      unfold updateTasksLines
      rw [readTasks_error_of_malformed tks hbad]
    have herr2 := update_tasks_jsonl_err _ (tasksPath d) tks (parse_task_input input) b () htk1 htup
    simp only [List.map_map] at hok herr2 htk1
    refine ⟨?_, ?_, ?_⟩ <;>
      simp [runScript, change_task_description, hd, hm, he, ht, hok, herr2, htk1,
        FS.read_write_self]

theorem C4_ordering_failure_witness :
    ((runScript sampleFS "ds" "t" false).2.1 = 1 ∧
      (runScript sampleFS "ds" "t" false).1.read (episodesPath "ds")
        = some (([sampleEp].map (epMut (parse_task_input "t"))).map Line.record) ∧
      (runScript sampleFS "ds" "t" false).1.read (tasksPath "ds") = some [Line.malformed]) :=
  (C4_ordering_failure sampleFS "ds" "t" false [Line.malformed]
    (by decide) (by decide) (by decide) (by decide)).2 [sampleEp] (by decide)

/-- C9: for every run invoked with the backup flag that completes
successfully, each target file has a sibling backup file — named by
replacing the file's final extension so the name ends in `.jsonl.backup` —
whose contents are exactly that file's pre-run contents (the copy is taken
from the file as read, before the overwrite). -/
theorem C9_backup (fs : FS) (d input : String) (epLines tkLines : List Line) (fs2 : FS)
    (he : fs.read (episodesPath d) = some epLines)
    (ht : fs.read (tasksPath d) = some tkLines)
    (hrun : runScript fs d input true = (fs2, 0, none)) :
    withSuffix (episodesPath d) ".jsonl.backup" = d ++ "/meta/episodes.jsonl.backup" ∧
    withSuffix (tasksPath d) ".jsonl.backup" = d ++ "/meta/tasks.jsonl.backup" ∧
    fs2.read (d ++ "/meta/episodes.jsonl.backup") = some epLines ∧
    fs2.read (d ++ "/meta/tasks.jsonl.backup") = some tkLines := by
  refine ⟨withSuffix_episodesPath d, withSuffix_tasksPath d, ?_⟩
  have hch : change_task_description fs d input true = (fs2, none) := by
    rcases hE : change_task_description fs d input true with ⟨fsx, e⟩
    unfold runScript at hrun
    rw [hE] at hrun
    cases e with
    | none =>
      injection hrun with h1 h2
      subst h1
      rfl
    | some msg =>
      injection hrun with h1 h2
      injection h2 with h3 h4
      exact absurd h3 one_ne_zero
  by_cases hd : d ∈ fs.dirs
  · by_cases hm : metaPath d ∈ fs.dirs
    · cases hE2 : update_episodes_jsonl fs (episodesPath d) (parse_task_input input) true with
      | error e => simp [change_task_description, hd, hm, he, ht, hE2] at hch
      | ok fs1 =>
        cases hT2 : update_tasks_jsonl fs1 (tasksPath d) (parse_task_input input) true with
        | error e => simp [change_task_description, hd, hm, he, ht, hE2, hT2] at hch
        | ok fsr =>
          have hfs2 : fsr = fs2 := by
            simp [change_task_description, hd, hm, he, ht, hE2, hT2] at hch
            exact hch
          subst hfs2
          simp only [update_episodes_jsonl, he] at hE2
          cases hU : updateEpisodesLines epLines (parse_task_input input) with
          | error e => rw [hU] at hE2; cases hE2
          | ok out =>
            rw [hU] at hE2
            have hfs1 : fs1
                = (fs.write (withSuffix (episodesPath d) ".jsonl.backup") epLines).write
                    (episodesPath d) out := by
              injection hE2 with h'
              rw [← h']
              simp
            have htk1 : fs1.read (tasksPath d) = some tkLines := by
              rw [hfs1, FS.read_write_ne _ _ _ _ (ne_tk_ep d), withSuffix_episodesPath,
                FS.read_write_ne _ _ _ _ (ne_tk_epB d)]
              exact ht
            simp only [update_tasks_jsonl, htk1] at hT2
            cases hV : updateTasksLines tkLines (parse_task_input input) with
            | error e => rw [hV] at hT2; cases hT2
            | ok out2 =>
              rw [hV] at hT2
              have hfsr : fsr
                  = (fs1.write (withSuffix (tasksPath d) ".jsonl.backup") tkLines).write
                      (tasksPath d) out2 := by
                injection hT2 with h'
                rw [← h']
                simp
              constructor
              · rw [hfsr, withSuffix_tasksPath,
                  FS.read_write_ne _ _ _ _ (ne_epB_tk d),
                  FS.read_write_ne _ _ _ _ (ne_epB_tkB d),
                  hfs1, withSuffix_episodesPath,
                  FS.read_write_ne _ _ _ _ (ne_epB_ep d)]
                exact FS.read_write_self _ _ _
              · rw [hfsr, withSuffix_tasksPath,
                  FS.read_write_ne _ _ _ _ (ne_tkB_tk d)]
                exact FS.read_write_self _ _ _
    · simp [change_task_description, hd, hm] at hch
  · simp [change_task_description, hd] at hch

theorem C9_backup_witness :
    withSuffix (episodesPath "ds") ".jsonl.backup" = "ds" ++ "/meta/episodes.jsonl.backup" ∧
    withSuffix (tasksPath "ds") ".jsonl.backup" = "ds" ++ "/meta/tasks.jsonl.backup" ∧
    (runScript sampleFS2 "ds" "t" true).1.read ("ds" ++ "/meta/episodes.jsonl.backup")
      = some [Line.record sampleEp] ∧
    (runScript sampleFS2 "ds" "t" true).1.read ("ds" ++ "/meta/tasks.jsonl.backup")
      = some [Line.record sampleTk] :=
  C9_backup sampleFS2 "ds" "t" [Line.record sampleEp] [Line.record sampleTk]
    ((runScript sampleFS2 "ds" "t" true).1) (by decide) (by decide) (by rfl)
